import Mathlib

/-!
Shallow embedding of `src/blockchain.py` (class `Blockchain`): the ledger,
proof-of-work, chain validation and consensus resolution.  Python `int`s are
modelled as `Int` (proof counters searched from 0 are `Nat`), byte strings as
`List Nat` (each entry < 256), and SHA-256 (`hashlib.sha256`) is implemented
below as an executable pure function following FIPS 180-4, so that concrete
runs of the code can be evaluated inside proofs.  Block timestamps (`time()`
returns a float in Python) are modelled as natural numbers supplied by the
caller; no verified property depends on the timestamp value.
-/

/-- Truncate a natural number to a 32-bit word, as all SHA-256 arithmetic is
modulo 2^32. -/
def w32 (n : Nat) : Nat := n % 4294967296

/-- Right rotation of a 32-bit word by `n` bits. -/
def rotr (n b : Nat) : Nat := w32 ((b >>> n) ||| (b <<< (32 - n)))

/-- SHA-256 Ch function. -/
def shaCh (x y z : Nat) : Nat := (x &&& y) ^^^ ((x ^^^ 4294967295) &&& z)

/-- SHA-256 Maj function. -/
def shaMaj (x y z : Nat) : Nat := (x &&& y) ^^^ (x &&& z) ^^^ (y &&& z)

/-- SHA-256 big sigma 0. -/
def bsig0 (x : Nat) : Nat := (rotr 2 x) ^^^ (rotr 13 x) ^^^ (rotr 22 x)

/-- SHA-256 big sigma 1. -/
def bsig1 (x : Nat) : Nat := (rotr 6 x) ^^^ (rotr 11 x) ^^^ (rotr 25 x)

/-- SHA-256 small sigma 0. -/
def ssig0 (x : Nat) : Nat := (rotr 7 x) ^^^ (rotr 18 x) ^^^ (x >>> 3)

/-- SHA-256 small sigma 1. -/
def ssig1 (x : Nat) : Nat := (rotr 17 x) ^^^ (rotr 19 x) ^^^ (x >>> 10)

/-- The 64 SHA-256 round constants. -/
def shaK : List Nat :=
  [1116352408, 1899447441, 3049323471, 3921009573, 961987163, 1508970993,
   2453635748, 2870763221, 3624381080, 310598401, 607225278, 1426881987,
   1925078388, 2162078206, 2614888103, 3248222580, 3835390401, 4022224774,
   264347078, 604807628, 770255983, 1249150122, 1555081692, 1996064986,
   2554220882, 2821834349, 2952996808, 3210313671, 3336571891, 3584528711,
   113926993, 338241895, 666307205, 773529912, 1294757372, 1396182291,
   1695183700, 1986661051, 2177026350, 2456956037, 2730485921, 2820302411,
   3259730800, 3345764771, 3516065817, 3600352804, 4094571909, 275423344,
   430227734, 506948616, 659060556, 883997877, 958139571, 1322822218,
   1537002063, 1747873779, 1955562222, 2024104815, 2227730452, 2361852424,
   2428436474, 2756734187, 3204031479, 3329325298]

/-- The SHA-256 initial hash value. -/
def shaH0 : List Nat :=
  [1779033703, 3144134277, 1013904242, 2773480762,
   1359893119, 2600822924, 528734635, 1541459225]

/-- Big-endian byte expansion: `beBytes k v` is the `k`-byte big-endian
representation of `v`. -/
def beBytes : Nat → Nat → List Nat
  | 0, _ => []
  | k + 1, v => beBytes k (v >>> 8) ++ [v &&& 255]

/-- SHA-256 message padding: append the `0x80` byte, zeros up to 56 mod 64,
and the bit length as an 8-byte big-endian integer. -/
def padMessage (m : List Nat) : List Nat :=
  let L := m.length
  let k := (64 - (L + 9) % 64) % 64
  m ++ 128 :: List.replicate k 0 ++ beBytes 8 (8 * L)

/-- Group a byte list into big-endian 32-bit words (length a multiple of 4). -/
def bytesToWords : List Nat → List Nat
  | a :: b :: c :: d :: rest => (((a * 256 + b) * 256 + c) * 256 + d) :: bytesToWords rest
  | _ => []

/-- Extend a 16-word message block to the 64-word schedule; `fuel` is the
number of words still to append (48 at the top call). -/
def extendSchedule : Nat → List Nat → List Nat
  | 0, ws => ws
  | n + 1, ws =>
      let t := ws.length
      let x := w32 (ssig1 (ws.getD (t - 2) 0) + ws.getD (t - 7) 0 +
                    ssig0 (ws.getD (t - 15) 0) + ws.getD (t - 16) 0)
      extendSchedule n (ws ++ [x])

/-- One SHA-256 compression round on the 8-word working state, consuming one
round constant and one schedule word. -/
def shaRound (st : Nat × Nat × Nat × Nat × Nat × Nat × Nat × Nat) (kw : Nat × Nat) :
    Nat × Nat × Nat × Nat × Nat × Nat × Nat × Nat :=
  match st, kw with
  | (a, b, c, d, e, f, g, h), (k, w) =>
      let t1 := w32 (h + bsig1 e + shaCh e f g + k + w)
      let t2 := w32 (bsig0 a + shaMaj a b c)
      (w32 (t1 + t2), a, b, c, w32 (d + t1), e, f, g)

/-- SHA-256 compression of one 64-byte block into the 8-word chaining state. -/
def shaCompress (H : List Nat) (block : List Nat) : List Nat :=
  let W := extendSchedule 48 (bytesToWords block)
  let st0 := (H.getD 0 0, H.getD 1 0, H.getD 2 0, H.getD 3 0,
              H.getD 4 0, H.getD 5 0, H.getD 6 0, H.getD 7 0)
  match (shaK.zip W).foldl shaRound st0 with
  | (a, b, c, d, e, f, g, h) =>
      [w32 (H.getD 0 0 + a), w32 (H.getD 1 0 + b), w32 (H.getD 2 0 + c), w32 (H.getD 3 0 + d),
       w32 (H.getD 4 0 + e), w32 (H.getD 5 0 + f), w32 (H.getD 6 0 + g), w32 (H.getD 7 0 + h)]

/-- Process `fuel` 64-byte blocks of the padded message. -/
def shaBlocks : Nat → List Nat → List Nat → List Nat
  | 0, H, _ => H
  | n + 1, H, bytes => shaBlocks n (shaCompress H (bytes.take 64)) (bytes.drop 64)

/-- SHA-256 of a byte list, as the list of 8 32-bit state words. -/
def sha256Words (m : List Nat) : List Nat :=
  let padded := padMessage m
  shaBlocks (padded.length / 64) shaH0 padded

/-- Lower-case hex character for a nibble. -/
def hexChar (n : Nat) : Char := if n < 10 then Char.ofNat (48 + n) else Char.ofNat (87 + n)

/-- Lower-case hex rendering of one 32-bit word (8 characters). -/
def wordHexChars (w : Nat) : List Char :=
  [hexChar ((w >>> 28) &&& 15), hexChar ((w >>> 24) &&& 15), hexChar ((w >>> 20) &&& 15),
   hexChar ((w >>> 16) &&& 15), hexChar ((w >>> 12) &&& 15), hexChar ((w >>> 8) &&& 15),
   hexChar ((w >>> 4) &&& 15), hexChar (w &&& 15)]

/-- Hex digest of SHA-256 as a character list (64 characters), modelling
Python's `hashlib.sha256(m).hexdigest()`. -/
def sha256HexChars (m : List Nat) : List Char :=
  ((sha256Words m).map wordHexChars).flatten

/-- Decimal digit character. -/
def digitChar (n : Nat) : Char := Char.ofNat (48 + n)

/-- Decimal character rendering of a natural number, with explicit fuel to
keep the recursion structural (the fuel `n + 1` always suffices). -/
def natDecAux : Nat → Nat → List Char
  | 0, _ => []
  | fuel + 1, n => if n < 10 then [digitChar n] else natDecAux fuel (n / 10) ++ [digitChar (n % 10)]

/-- Decimal text representation of a natural number: 120 becomes the
characters 1, 2, 0. -/
def natDecChars (n : Nat) : List Char := natDecAux (n + 1) n

/-- Decimal text representation of a Python integer, as produced by
formatting it in an f-string: an optional minus sign followed by digits. -/
def intDecChars (i : Int) : List Char :=
  if i < 0 then Char.ofNat 45 :: natDecChars i.natAbs else natDecChars i.toNat

/-- UTF-8 encoding of one character, modelling how Python's `str.encode()`
turns each code point into bytes. -/
def utf8Char (c : Char) : List Nat :=
  let n := c.toNat
  if n < 128 then [n]
  else if n < 2048 then [192 + (n >>> 6), 128 + (n &&& 63)]
  else if n < 65536 then [224 + (n >>> 12), 128 + ((n >>> 6) &&& 63), 128 + (n &&& 63)]
  else [240 + (n >>> 18), 128 + ((n >>> 12) &&& 63), 128 + ((n >>> 6) &&& 63), 128 + (n &&& 63)]

/-- UTF-8 encoding of a character list, modelling Python's `str.encode()`. -/
def utf8Bytes (s : List Char) : List Nat := (s.map utf8Char).flatten

/-- Embedding of `Blockchain.validate_proof` (src/blockchain.py:97-109):
`guess = f'{last_proof}{proof}'.encode()`, `guess_hash =
hashlib.sha256(guess).hexdigest()`, `return guess_hash[:4] == "0000"`. -/
def validate_proof (last_proof proof : Int) : Bool :=
  let guess := utf8Bytes (intDecChars last_proof ++ intDecChars proof)
  let guess_hash := sha256HexChars guess
  guess_hash.take 4 == "0000".data

/-- A Python value that can sit in a block's `previous_hash` field: the
genesis block stores the integer `1`, every other block stores a hex digest
string. -/
inductive PyVal
  | int (n : Int)
  | str (s : String)
deriving DecidableEq

/-- Python truthiness of a `PyVal`: `0` and the empty string are falsy. -/
def PyVal.truthy : PyVal → Bool
  | .int n => decide (n ≠ 0)
  | .str s => decide (s ≠ "")

/-- A transaction dict as built by `Blockchain.new_transaction`
(src/blockchain.py:50-54): sender, recipient, amount. -/
structure Transaction where
  sender : String
  recipient : String
  amount : Int
deriving DecidableEq

/-- A block dict as built by `Blockchain.new_block` (src/blockchain.py:29-35). -/
structure Block where
  index : Nat
  timestamp : Nat
  transactions : List Transaction
  proof : Int
  previous_hash : PyVal
deriving DecidableEq

/-- Four-digit lower-case hex rendering, for JSON `\u` escapes. -/
def hex4 (n : Nat) : List Char :=
  [hexChar ((n >>> 12) &&& 15), hexChar ((n >>> 8) &&& 15), hexChar ((n >>> 4) &&& 15),
   hexChar (n &&& 15)]

/-- JSON escaping of one character as Python's `json.dumps` does with its
default `ensure_ascii=True`: printable ASCII passes through, quote,
backslash and the named control characters get two-character escapes,
everything else becomes a `\u` escape (with surrogate pairs above the basic
plane). -/
def jsonEscapeChar (c : Char) : List Char :=
  let n := c.toNat
  if n = 34 then [Char.ofNat 92, Char.ofNat 34]
  else if n = 92 then [Char.ofNat 92, Char.ofNat 92]
  else if n = 8 then [Char.ofNat 92, 'b']
  else if n = 9 then [Char.ofNat 92, 't']
  else if n = 10 then [Char.ofNat 92, 'n']
  else if n = 12 then [Char.ofNat 92, 'f']
  else if n = 13 then [Char.ofNat 92, 'r']
  else if 32 ≤ n && n ≤ 126 then [c]
  else if n < 65536 then Char.ofNat 92 :: 'u' :: hex4 n
  else
    let m := n - 65536
    Char.ofNat 92 :: 'u' :: hex4 (55296 + (m >>> 10)) ++
      Char.ofNat 92 :: 'u' :: hex4 (56320 + (m &&& 1023))

/-- JSON rendering of a Python string (quoted, escaped). -/
def jsonStringChars (s : String) : List Char :=
  Char.ofNat 34 :: (s.data.map jsonEscapeChar).flatten ++ [Char.ofNat 34]

/-- JSON rendering of a `PyVal`. -/
def PyVal.jsonChars : PyVal → List Char
  | .int n => intDecChars n
  | .str s => jsonStringChars s

/-- JSON rendering of a transaction dict under `sort_keys=True` (keys in the
order amount, recipient, sender) with `json.dumps`'s default separators. -/
def serializeTransaction (t : Transaction) : List Char :=
  Char.ofNat 123 ::
    ("\"amount\": ".data ++ intDecChars t.amount ++
     ", \"recipient\": ".data ++ jsonStringChars t.recipient ++
     ", \"sender\": ".data ++ jsonStringChars t.sender) ++ [Char.ofNat 125]

/-- JSON rendering of the transaction list of a block. -/
def serializeTransactions (ts : List Transaction) : List Char :=
  Char.ofNat 91 :: List.intercalate ", ".data (ts.map serializeTransaction) ++ [Char.ofNat 93]

/-- JSON rendering of a block dict under `sort_keys=True` (keys in the order
index, previous_hash, proof, timestamp, transactions), modelling
`json.dumps(block, sort_keys=True)` in `Blockchain.hash`
(src/blockchain.py:68).  Timestamps are modelled as integers. -/
def serializeBlock (b : Block) : List Char :=
  Char.ofNat 123 ::
    ("\"index\": ".data ++ natDecChars b.index ++
     ", \"previous_hash\": ".data ++ b.previous_hash.jsonChars ++
     ", \"proof\": ".data ++ intDecChars b.proof ++
     ", \"timestamp\": ".data ++ natDecChars b.timestamp ++
     ", \"transactions\": ".data ++ serializeTransactions b.transactions) ++ [Char.ofNat 125]

/-- The node state: the chain, the pending transaction pool and the peer
set.  `nodes` lists the peer set in its (arbitrary) iteration order. -/
structure Blockchain where
  chain : List Block
  current_transactions : List Transaction
  nodes : List String
deriving DecidableEq

/-- Embedding of the static method `Blockchain.hash` (src/blockchain.py:58-70):
SHA-256 hex digest of the canonical (`sort_keys=True`) JSON serialization of
the block, UTF-8 encoded. -/
def Blockchain.hash (block : Block) : String :=
  ⟨sha256HexChars (utf8Bytes (serializeBlock block))⟩

/-- Embedding of the property `Blockchain.last_block` (src/blockchain.py:72-79):
`self.chain[-1]`, which raises `IndexError` on an empty chain (the `none`
branch). -/
def Blockchain.last_block (bc : Blockchain) : Option Block := bc.chain.getLast?

/-- The block dict literal built inside `Blockchain.new_block`
(src/blockchain.py:29-35): index `len(self.chain) + 1`, the caller-supplied
`time()` value, the current pool, the given proof and the resolved
`previous_hash`. -/
def newBlockDict (bc : Blockchain) (timestamp : Nat) (proof : Int) (ph : PyVal) : Block :=
  { index := bc.chain.length + 1, timestamp := timestamp,
    transactions := bc.current_transactions, proof := proof, previous_hash := ph }

/-- Embedding of `Blockchain.new_block` (src/blockchain.py:20-38).  The
`previous_hash` argument is `none` when omitted; the stored field is
`previous_hash or self.hash(self.last_block)`, so any falsy argument falls
back to the hash of the last block.  The result is `none` exactly when that
fallback is taken on an empty chain (`self.chain[-1]` raises `IndexError`).
The new block is appended and the pool cleared. -/
def Blockchain.new_block (bc : Blockchain) (timestamp : Nat) (proof : Int)
    (previous_hash : Option PyVal) : Option (Block × Blockchain) :=
  let fallback : Option PyVal := (bc.last_block).map (fun lb => .str (Blockchain.hash lb))
  let ph? : Option PyVal :=
    match previous_hash with
    | some v => if v.truthy then some v else fallback
    | none => fallback
  match ph? with
  | none => none
  | some ph =>
      let block : Block := newBlockDict bc timestamp proof ph
      some (block, { bc with chain := bc.chain ++ [block], current_transactions := [] })

/-- Embedding of `Blockchain.__init__` (src/blockchain.py:12-18): empty
chain, empty pool, empty peer set, then the genesis block via
`new_block(proof=100, previous_hash=1)`.  The genesis `previous_hash` is the
truthy integer 1, so the `new_block` call always succeeds. -/
def Blockchain.init (genesisTime : Nat) : Blockchain :=
  let bc0 : Blockchain := { chain := [], current_transactions := [], nodes := [] }
  match bc0.new_block genesisTime 100 (some (.int 1)) with
  | some (_, bc) => bc
  | none => bc0

/-- Embedding of `Blockchain.new_transaction` (src/blockchain.py:40-56):
append the transaction dict to the pool, then return
`self.last_block['index'] + 1` (raising, i.e. `none`, on an empty chain). -/
def Blockchain.new_transaction (bc : Blockchain) (sender recipient : String)
    (amount : Int) : Option (Nat × Blockchain) :=
  let bc' := { bc with current_transactions := bc.current_transactions ++
    [({ sender := sender, recipient := recipient, amount := amount } : Transaction)] }
  (bc'.last_block).map (fun lb => (lb.index + 1, bc'))

/-- Embedding of `Blockchain.proof_of_work` (src/blockchain.py:81-95): start
at 0 and increment until `validate_proof` holds, i.e. return the least such
natural number.  The loop terminates exactly when a solution exists, which
is taken as a hypothesis. -/
def Blockchain.proof_of_work (last_proof : Int)
    (h : ∃ p : Nat, validate_proof last_proof (Int.ofNat p) = true) : Nat :=
  Nat.find h

/-- The loop body of `Blockchain.validate_chain` (src/blockchain.py:130-146):
walk the blocks after the first, tracking `last_block`, failing on a hash
mismatch or an invalid proof pair. -/
def validateChainFrom : Block → List Block → Bool
  | _, [] => true
  | last_block, block :: rest =>
      if block.previous_hash ≠ PyVal.str (Blockchain.hash last_block) then false
      else if validate_proof last_block.proof block.proof = false then false
      else validateChainFrom block rest

/-- Embedding of `Blockchain.validate_chain` (src/blockchain.py:122-146).
`blocks[0]` raises `IndexError` on an empty list (the `none` branch);
otherwise the walk from the first block decides validity.  It reads no state
of the ledger. -/
def Blockchain.validate_chain (blocks : List Block) : Option Bool :=
  match blocks with
  | [] => none
  | b :: bs => some (validateChainFrom b bs)

/-- Outcome of `requests.get(f'http://.../chain')` for one peer:
`exn` when the request raises (unreachable peer), otherwise a response with
a status code and, behind `response.json()['length']` / `['chain']`, either
a well-formed `(length, chain)` body or `none` when parsing or key access
raises. -/
inductive PeerFetch
  | exn
  | resp (status : Nat) (body : Option (Int × List Block))
deriving DecidableEq

/-- The peer-scanning loop of `Blockchain.resolve_conflicts`
(src/blockchain.py:160-169), over the fetch outcomes in iteration order,
carrying `new_chain` and `current_length`.  An exception inside the loop
(failed request, malformed 200 body, or `IndexError` from `validate_chain`
on an empty candidate) aborts the whole call (`Except.error`).  Note the
body is only parsed on status 200, and `validate_chain` only runs when the
reported length beats `current_length`. -/
def resolveLoop : List PeerFetch → Option (List Block) → Int → Except Unit (Option (List Block))
  | [], new_chain, _ => .ok new_chain
  | .exn :: _, _, _ => .error ()
  | .resp status body :: rest, new_chain, current_length =>
      if status = 200 then
        match body with
        | none => .error ()
        | some (length, chain) =>
            if current_length < length then
              match Blockchain.validate_chain chain with
              | none => .error ()
              | some true => resolveLoop rest (some chain) length
              | some false => resolveLoop rest new_chain current_length
            else resolveLoop rest new_chain current_length
      else resolveLoop rest new_chain current_length

/-- Embedding of `Blockchain.resolve_conflicts` (src/blockchain.py:148-176).
`fetch` gives each registered node's fetch outcome; after the scan,
`if new_chain:` (Python truthiness, so a `some []` would also be falsy)
decides whether the local chain is replaced. -/
def Blockchain.resolve_conflicts (bc : Blockchain) (fetch : String → PeerFetch) :
    Except Unit (Bool × Blockchain) :=
  match resolveLoop (bc.nodes.map fetch) none (Int.ofNat bc.chain.length) with
  | .error _ => .error ()
  | .ok new_chain =>
      match new_chain with
      | some c => if c ≠ [] then .ok (true, { bc with chain := c }) else .ok (false, bc)
      | none => .ok (false, bc)

/-- The genesis block of a ledger created at time 0: what
`Blockchain.__init__` appends via `new_block(proof=100, previous_hash=1)`. -/
def genesisBlock : Block :=
  { index := 1, timestamp := 0, transactions := [], proof := 100, previous_hash := .int 1 }

/-- C7: a freshly created Ledger has a chain containing exactly one block;
that genesis block has index 1, the sentinel `previous_hash` (the integer
1), the seed proof 100, and an empty transaction sequence, and the pending
pool is empty. -/
theorem fresh_ledger_genesis (t : Nat) :
    (Blockchain.init t).chain =
      [{ index := 1, timestamp := t, transactions := [], proof := 100,
         previous_hash := PyVal.int 1 }] ∧
    (Blockchain.init t).current_transactions = [] :=
  ⟨rfl, rfl⟩

/-- C9: `new_block` stores `previous_hash or self.hash(self.last_block)`,
so a falsy supplied `previous_hash` (such as the integer 0 or the empty
string) is ignored exactly as if the argument had been omitted, while a
truthy supplied value is stored as given. -/
theorem new_block_previous_hash_truthiness (bc : Blockchain) (t : Nat) (p : Int) (v : PyVal) :
    (v.truthy = false → bc.new_block t p (some v) = bc.new_block t p none) ∧
    (v.truthy = true → ∀ b bc', bc.new_block t p (some v) = some (b, bc') →
      b.previous_hash = v) := by
  constructor
  · intro hv
    simp [Blockchain.new_block, hv]
  · intro hv b bc' heq
    simp only [Blockchain.new_block, hv, if_true] at heq
    injection heq with h1
    injection h1 with hb _
    subst hb
    rfl

/-- C9 witness: supplying the falsy integer 0 as `previous_hash` behaves as
omitting the argument, and the truthy string is stored as given, on a fresh
ledger. -/
theorem new_block_previous_hash_truthiness_witness :
    Blockchain.new_block (Blockchain.init 0) 1 5 (some (PyVal.int 0)) =
      Blockchain.new_block (Blockchain.init 0) 1 5 none :=
  (new_block_previous_hash_truthiness (Blockchain.init 0) 1 5 (PyVal.int 0)).1 (by decide)

/-- C10: `validate_chain` reads `blocks[0]` unconditionally, so it is
defined (returns a value rather than raising `IndexError`) exactly on
non-empty block lists; under the precondition that the candidate is
non-empty the error branch is unreachable. -/
theorem validate_chain_defined_of_nonempty (c : List Block) (h : c ≠ []) :
    (Blockchain.validate_chain c).isSome = true := by
  cases c with
  | nil => exact absurd rfl h
  | cons b bs => rfl

/-- C10 witness: a one-block candidate is non-empty and `validate_chain`
returns a value on it. -/
theorem validate_chain_defined_of_nonempty_witness :
    ([genesisBlock] : List Block) ≠ [] ∧
    (Blockchain.validate_chain [genesisBlock]).isSome = true :=
  ⟨by decide, validate_chain_defined_of_nonempty [genesisBlock] (by decide)⟩

/-- The per-pair condition checked by `validate_chain` on an adjacent pair
`(prev, curr)`: the hash link and the proof-of-work link. -/
def linkOk (prev curr : Block) : Prop :=
  curr.previous_hash = PyVal.str (Blockchain.hash prev) ∧
  validate_proof prev.proof curr.proof = true

/-- Unfolding one step of the `validate_chain` walk. -/
lemma validateChainFrom_cons (b c : Block) (cs : List Block) :
    validateChainFrom b (c :: cs) = true ↔
      linkOk b c ∧ validateChainFrom c cs = true := by
  by_cases h1 : c.previous_hash = PyVal.str (Blockchain.hash b)
  · by_cases h2 : validate_proof b.proof c.proof = true
    · simp [validateChainFrom, h1, h2, linkOk]
    · have h2' : validate_proof b.proof c.proof = false := by
        cases hb : validate_proof b.proof c.proof with
        | false => rfl
        | true => exact absurd hb h2
      simp [validateChainFrom, h1, h2', linkOk]
  · simp [validateChainFrom, h1, linkOk]

/-- C6: on a non-empty block sequence `validate_chain` returns true exactly
when every adjacent pair `(prev, curr)` from the first block satisfies
`curr.previous_hash == self.hash(prev)` and
`validate_proof(prev.proof, curr.proof)`; a single-block chain is always
valid.  The function is pure and takes only the candidate list, so it
neither mutates nor reads the local ledger. -/
theorem validate_chain_adjacent_pairs (b : Block) (bs : List Block) :
    (Blockchain.validate_chain (b :: bs) = some true ↔ List.Chain linkOk b bs) ∧
    Blockchain.validate_chain [b] = some true := by
  refine ⟨?_, rfl⟩
  show some (validateChainFrom b bs) = some true ↔ _
  rw [Option.some_inj]
  induction bs generalizing b with
  | nil => simp [validateChainFrom]
  | cons c cs ih => rw [validateChainFrom_cons, List.chain_cons, ih c]

/-- Appending one block to a walked chain: the extended walk succeeds iff
the old walk did and the new block links to the old last block. -/
lemma validateChainFrom_snoc (b : Block) (bs : List Block) (lb nb : Block)
    (hlb : (b :: bs).getLast? = some lb) :
    validateChainFrom b (bs ++ [nb]) = true ↔
      validateChainFrom b bs = true ∧ linkOk lb nb := by
  induction bs generalizing b with
  | nil =>
      have hb : lb = b := by
        simp [List.getLast?] at hlb
        exact hlb.symm
      subst hb
      rw [List.nil_append, validateChainFrom_cons]
      simp [validateChainFrom]
  | cons c cs ih =>
      have hlb' : (c :: cs).getLast? = some lb := by
        rwa [List.getLast?_cons_cons] at hlb
      rw [List.cons_append, validateChainFrom_cons b c (cs ++ [nb]),
          validateChainFrom_cons b c cs, ih c hlb']
      tauto

/-- States reachable from a fresh ledger by `new_block` calls alone, with
arbitrary proof and `previous_hash` arguments (the reading of C3's "chain
produced solely by a sequence of newBlock calls"). -/
inductive Produced : Blockchain → Prop
  | init (t : Nat) : Produced (Blockchain.init t)
  | step (bc bc' : Blockchain) (b : Block) (t : Nat) (p : Int) (ph : Option PyVal) :
      Produced bc → bc.new_block t p ph = some (b, bc') → Produced bc'

/-- States reachable from a fresh ledger by `new_block` calls that omit
`previous_hash` and whose proof argument satisfies `validate_proof` against
the last block's proof - i.e. the blocks a miner actually appends after
running `proof_of_work`. -/
inductive GoodProduced : Blockchain → Prop
  | init (t : Nat) : GoodProduced (Blockchain.init t)
  | step (bc bc' : Blockchain) (b lb : Block) (t : Nat) (p : Int) :
      GoodProduced bc → bc.last_block = some lb → validate_proof lb.proof p = true →
      bc.new_block t p none = some (b, bc') → GoodProduced bc'

/-- With an omitted `previous_hash` and a non-empty chain, `new_block`
appends the dict whose `previous_hash` is the hash of the last block. -/
lemma new_block_none_eq (bc : Blockchain) (t : Nat) (p : Int) (lb : Block)
    (hlb : bc.last_block = some lb) :
    bc.new_block t p none =
      some (newBlockDict bc t p (.str (Blockchain.hash lb)),
            { bc with
              chain := bc.chain ++ [newBlockDict bc t p (.str (Blockchain.hash lb))],
              current_transactions := [] }) := by
  simp [Blockchain.new_block, hlb]

/-- Chains reachable by well-proved, default-linked `new_block` calls are
non-empty and pass the `validate_chain` walk. -/
lemma goodProduced_chain_valid (bc : Blockchain) (h : GoodProduced bc) :
    ∃ b bs, bc.chain = b :: bs ∧ validateChainFrom b bs = true := by
  induction h with
  | init t =>
      exact ⟨{ index := 1, timestamp := t, transactions := [], proof := 100,
               previous_hash := PyVal.int 1 }, [], rfl, rfl⟩
  | step bc bc' b lb t p hgood hlb hvp hnb ih =>
      obtain ⟨hb, hbs, hchain, hvalid⟩ := ih
      rw [new_block_none_eq bc t p lb hlb] at hnb
      injection hnb with hnb'
      injection hnb' with hbeq hbceq
      have hchain' : bc'.chain = hb :: (hbs ++ [newBlockDict bc t p (.str (Blockchain.hash lb))]) := by
        rw [← hbceq]
        simp [hchain]
      refine ⟨hb, hbs ++ [newBlockDict bc t p (.str (Blockchain.hash lb))], hchain', ?_⟩
      have hlast : (hb :: hbs).getLast? = some lb := by
        have := hlb
        unfold Blockchain.last_block at this
        rwa [hchain] at this
      rw [validateChainFrom_snoc hb hbs lb _ hlast]
      exact ⟨hvalid, rfl, hvp⟩

/-- C3 counterexample: the genesis block of a ledger created at time 0 has
this hash (checked by evaluation below). -/
def genesisHashHex : String :=
  "ad1202098ddaa2c7ba092ed8e65662d9826a9b20a115102a8c4e9df7886d8633"

/-- The block appended by `new_block(proof=0)` on a fresh ledger at time 0:
its proof 0 does not satisfy `validate_proof` against the genesis proof. -/
def cexBlock : Block :=
  { index := 2, timestamp := 0, transactions := [], proof := 0,
    previous_hash := .str genesisHashHex }

/-- The ledger state after that `new_block(proof=0)` call. -/
def cexState : Blockchain :=
  { chain := [genesisBlock, cexBlock], current_transactions := [], nodes := [] }

set_option maxRecDepth 100000 in
/-- Evaluation of the offending `new_block` call on a fresh ledger. -/
lemma new_block_cex :
    Blockchain.new_block (Blockchain.init 0) 0 0 none = some (cexBlock, cexState) := by
  decide

set_option maxRecDepth 100000 in
/-- C3 counterexample: a state produced solely by `new_block` calls from a
fresh ledger (one call, with proof 0) whose chain fails `validate_chain`,
because `new_block` never checks its proof argument.  This refutes the
claim that every such chain validates. -/
theorem produced_chain_invalid_cex :
    Produced cexState ∧ Blockchain.validate_chain cexState.chain = some false :=
  ⟨Produced.step (Blockchain.init 0) cexState cexBlock 0 0 none (Produced.init 0) new_block_cex,
   by decide⟩

/-- C3 amended: every chain produced from a fresh ledger by `new_block`
calls that omit `previous_hash` and pass a proof accepted by
`validate_proof` against the last block's proof (as mining does) satisfies
`validate_chain`. -/
theorem good_new_block_chains_valid (bc : Blockchain) (h : GoodProduced bc) :
    Blockchain.validate_chain bc.chain = some true := by
  obtain ⟨b, bs, hchain, hvalid⟩ := goodProduced_chain_valid bc h
  rw [hchain]
  simpa [Blockchain.validate_chain] using hvalid

/-- The block mined on a fresh ledger at time 5 with the genuine
proof-of-work solution 35293 for the genesis proof 100. -/
def minedBlock : Block :=
  { index := 2, timestamp := 5, transactions := [], proof := 35293,
    previous_hash := .str genesisHashHex }

/-- The ledger state after appending `minedBlock`. -/
def minedState : Blockchain :=
  { chain := [genesisBlock, minedBlock], current_transactions := [], nodes := [] }

set_option maxRecDepth 100000 in
/-- Evaluation of a well-proved `new_block` call on a fresh ledger. -/
lemma new_block_mined :
    Blockchain.new_block (Blockchain.init 0) 5 35293 none = some (minedBlock, minedState) := by
  decide

set_option maxRecDepth 100000 in
/-- C3 witness (amended): the concrete two-block chain built by one
genuinely mined `new_block` call passes `validate_chain`. -/
theorem good_new_block_chains_valid_witness :
    Blockchain.validate_chain minedState.chain = some true :=
  good_new_block_chains_valid minedState
    (GoodProduced.step (Blockchain.init 0) minedState minedBlock genesisBlock 5 35293
      (GoodProduced.init 0) (by decide) (by decide) new_block_mined)

/-- Submitting a list of transactions one by one through
`new_transaction`, keeping only the final state (the returned indices are
advisory). -/
def submitTransactions : Blockchain → List Transaction → Option Blockchain
  | bc, [] => some bc
  | bc, t :: ts =>
      match bc.new_transaction t.sender t.recipient t.amount with
      | none => none
      | some (_, bc') => submitTransactions bc' ts

/-- On a ledger with a non-empty chain, submitting transactions only
appends them to the pool, in order. -/
lemma submitTransactions_eq (bc : Blockchain) (ts : List Transaction)
    (h : bc.chain ≠ []) :
    submitTransactions bc ts =
      some { bc with current_transactions := bc.current_transactions ++ ts } := by
  induction ts generalizing bc with
  | nil => simp [submitTransactions]
  | cons t ts ih =>
      obtain ⟨lb, hlb⟩ := Option.ne_none_iff_exists'.mp
        (mt List.getLast?_eq_none_iff.mp h)
      rw [submitTransactions, Blockchain.new_transaction]
      simp only [Blockchain.last_block, hlb, Option.map_some']
      refine (ih { bc with current_transactions := bc.current_transactions ++
        [({ sender := t.sender, recipient := t.recipient, amount := t.amount } : Transaction)] }
        h).trans ?_
      simp

/-- Whatever the arguments, a successful `new_block` call embeds the whole
pool into the new block, clears the pool, appends the block, and leaves
the peer set alone. -/
lemma new_block_shape (bc : Blockchain) (t : Nat) (p : Int) (ph : Option PyVal)
    (blk : Block) (bc' : Blockchain) (h : bc.new_block t p ph = some (blk, bc')) :
    blk.transactions = bc.current_transactions ∧ bc'.current_transactions = [] ∧
    bc'.chain = bc.chain ++ [blk] ∧ bc'.nodes = bc.nodes := by
  cases ph with
  | some v =>
      by_cases hv : v.truthy = true
      · simp [Blockchain.new_block, hv] at h
        obtain ⟨hblk, hbc⟩ := h
        subst hblk
        subst hbc
        exact ⟨rfl, rfl, rfl, rfl⟩
      · cases hlb : bc.last_block with
        | none => simp [Blockchain.new_block, hv, hlb] at h
        | some lb =>
            simp [Blockchain.new_block, hv, hlb] at h
            obtain ⟨hblk, hbc⟩ := h
            subst hblk
            subst hbc
            exact ⟨rfl, rfl, rfl, rfl⟩
  | none =>
      cases hlb : bc.last_block with
      | none => simp [Blockchain.new_block, hlb] at h
      | some lb =>
          simp [Blockchain.new_block, hlb] at h
          obtain ⟨hblk, hbc⟩ := h
          subst hblk
          subst hbc
          exact ⟨rfl, rfl, rfl, rfl⟩

/-- C8: after any number of `new_transaction` calls on a ledger with an
empty pool (and the always non-empty chain), the next `new_block` call
builds a block whose transaction list is exactly the submitted
transactions in submission order, and leaves the pool empty. -/
theorem pool_to_block_accounting (bc : Blockchain) (ts : List Transaction)
    (t : Nat) (p : Int) (ph : Option PyVal) (bc' : Blockchain) (blk : Block)
    (bc'' : Blockchain)
    (hpool : bc.current_transactions = []) (hne : bc.chain ≠ [])
    (hsub : submitTransactions bc ts = some bc')
    (hnb : bc'.new_block t p ph = some (blk, bc'')) :
    blk.transactions = ts ∧ bc''.current_transactions = [] := by
  rw [submitTransactions_eq bc ts hne] at hsub
  injection hsub with hsub
  obtain ⟨htx, hempty, _, _⟩ := new_block_shape bc' t p ph blk bc'' hnb
  refine ⟨?_, hempty⟩
  rw [htx, ← hsub]
  simp [hpool]

/-- A sample transaction for concrete runs. -/
def txA : Transaction := { sender := "A", recipient := "B", amount := 5 }

/-- Another sample transaction (shaped like a mining reward). -/
def txB : Transaction := { sender := "0", recipient := "N", amount := 1 }

/-- A fresh ledger with both sample transactions pending. -/
def poolState : Blockchain :=
  { chain := [genesisBlock], current_transactions := [txA, txB], nodes := [] }

/-- The block built from that pool by `new_block(7, "x")` at time 9. -/
def poolBlk : Block :=
  { index := 2, timestamp := 9, transactions := [txA, txB], proof := 7,
    previous_hash := .str "x" }

/-- The ledger after that `new_block` call: block appended, pool drained. -/
def poolDrained : Blockchain :=
  { chain := [genesisBlock, poolBlk], current_transactions := [], nodes := [] }

/-- C8 witness: two submitted transactions land, in order, in the next
mined block, and the pool is empty afterwards. -/
theorem pool_to_block_accounting_witness :
    submitTransactions (Blockchain.init 0) [txA, txB] = some poolState ∧
    Blockchain.new_block poolState 9 7 (some (PyVal.str "x")) = some (poolBlk, poolDrained) ∧
    poolBlk.transactions = [txA, txB] ∧ poolDrained.current_transactions = [] := by
  refine ⟨rfl, rfl, ?_, ?_⟩
  · exact (pool_to_block_accounting (Blockchain.init 0) [txA, txB] 9 7
      (some (PyVal.str "x")) poolState poolBlk poolDrained rfl (by decide) rfl rfl).1
  · exact (pool_to_block_accounting (Blockchain.init 0) [txA, txB] 9 7
      (some (PyVal.str "x")) poolState poolBlk poolDrained rfl (by decide) rfl rfl).2

/-- C4: whenever a solution exists, the `proof_of_work` loop terminates
and returns the smallest natural number accepted by `validate_proof`; in
particular its result validates and everything below it does not. -/
theorem proof_of_work_least (last_proof : Int)
    (h : ∃ p : Nat, validate_proof last_proof (Int.ofNat p) = true) :
    validate_proof last_proof (Int.ofNat (Blockchain.proof_of_work last_proof h)) = true ∧
    ∀ q : Nat, q < Blockchain.proof_of_work last_proof h →
      validate_proof last_proof (Int.ofNat q) = false := by
  refine ⟨Nat.find_spec h, fun q hq => ?_⟩
  have hmin := Nat.find_min h hq
  simpa using hmin

/-- A puzzle solution exists for the genesis proof 100: 35293 works. -/
lemma pow_exists_100 : ∃ p : Nat, validate_proof 100 (Int.ofNat p) = true :=
  ⟨35293, by decide⟩

/-- C4 witness: instantiated at `last_proof = 100`, whose least solution
exists, the returned proof validates. -/
theorem proof_of_work_least_witness :
    validate_proof 100 (Int.ofNat (Blockchain.proof_of_work 100 pow_exists_100)) = true :=
  (proof_of_work_least 100 pow_exists_100).1

/-- Boolean equality on character lists agrees with decidable equality. -/
lemma charList_beq_eq_decide (l m : List Char) : (l == m) = decide (l = m) := by
  by_cases h : l = m <;> simp [beq_iff_eq, h]

/-- UTF-8 encoding distributes over concatenation. -/
lemma utf8Bytes_append (s u : List Char) :
    utf8Bytes (s ++ u) = utf8Bytes s ++ utf8Bytes u := by
  simp [utf8Bytes]

/-- The spec's phrasing of the puzzle predicate: encode the two decimal
text representations separately, concatenate the byte sequences, hash with
SHA-256, and require the first 4 characters of the hex digest to be 0000. -/
def validateProofSpec (lastProof proof : Int) : Bool :=
  let digest := sha256HexChars (utf8Bytes (intDecChars lastProof) ++ utf8Bytes (intDecChars proof))
  decide (digest.take 4 = ['0', '0', '0', '0'])

/-- C5: `validate_proof` is a pure function of its two integer arguments
and agrees everywhere with the spec's description: true exactly when the
SHA-256 hex digest of the concatenated decimal text representations starts
with four zero characters. -/
theorem validate_proof_matches_spec (lastProof proof : Int) :
    validate_proof lastProof proof = validateProofSpec lastProof proof := by
  unfold validate_proof validateProofSpec
  rw [← utf8Bytes_append, charList_beq_eq_decide]

/-- A ledger with one registered peer. -/
def unreachableState : Blockchain :=
  { chain := [genesisBlock], current_transactions := [], nodes := ["peer1"] }

/-- C2 counterexample: `resolve_conflicts` wraps the peer fetch in no
`try`, so with one registered peer whose `requests.get` raises (an
unreachable peer) the exception propagates out of `resolve_conflicts`
instead of the peer being skipped. -/
theorem resolve_unreachable_peer_raises :
    Blockchain.resolve_conflicts unreachableState (fun _ => PeerFetch.exn) =
      Except.error () :=
  rfl

/-- Dropping a non-success response from anywhere in the scan list leaves
the loop's result unchanged. -/
lemma resolveLoop_skip (status : Nat) (body : Option (Int × List Block))
    (hs : status ≠ 200) :
    ∀ (xs ys : List PeerFetch) (nc : Option (List Block)) (cl : Int),
      resolveLoop (xs ++ PeerFetch.resp status body :: ys) nc cl =
        resolveLoop (xs ++ ys) nc cl := by
  intro xs
  induction xs with
  | nil =>
      intro ys nc cl
      simp [resolveLoop, hs]
  | cons x xs ih =>
      intro ys nc cl
      cases x with
      | exn => simp [resolveLoop]
      | resp s b =>
          by_cases h200 : s = 200
          · subst h200
            cases b with
            | none => simp [resolveLoop]
            | some lb =>
                obtain ⟨len, chain⟩ := lb
                by_cases hlt : cl < len
                · cases hv : Blockchain.validate_chain chain with
                  | none => simp [resolveLoop, hlt, hv]
                  | some bv =>
                      cases bv with
                      | false => simp [resolveLoop, hlt, hv, ih]
                      | true => simp [resolveLoop, hlt, hv, ih]
                · simp [resolveLoop, hlt, ih]
          · simp [resolveLoop, h200, ih]

/-- The observable outcome of a consensus run: the error or the replaced
flag together with the resulting chain and pool (the registered peer set is
an input of the scan, not an output). -/
def resolveView (r : Except Unit (Bool × Blockchain)) :
    Except Unit (Bool × List Block × List Transaction) :=
  r.map (fun p => (p.1, p.2.chain, p.2.current_transactions))

/-- C2 amended: a peer that answers with a non-success status code is
skipped - the outcome is as if the peer were not registered, with no state
adopted from it and no error; but a peer whose fetch raises, or a success
response with a malformed body, makes the exception propagate out of
`resolve_conflicts` (see the counterexample). -/
theorem resolve_skips_non_success (bc : Blockchain) (fetch : String → PeerFetch)
    (n : String) (pre post : List String) (status : Nat)
    (body : Option (Int × List Block))
    (hn : bc.nodes = pre ++ n :: post) (hf : fetch n = PeerFetch.resp status body)
    (hs : status ≠ 200) :
    resolveView (bc.resolve_conflicts fetch) =
      resolveView (Blockchain.resolve_conflicts { bc with nodes := pre ++ post } fetch) := by
  unfold resolveView Blockchain.resolve_conflicts
  simp only [hn, List.map_append, List.map_cons, hf]
  rw [resolveLoop_skip status body hs (pre.map fetch) (post.map fetch)]
  cases resolveLoop (List.map fetch pre ++ List.map fetch post) none
      (Int.ofNat bc.chain.length) with
  | error e => rfl
  | ok nc =>
      cases nc with
      | none => rfl
      | some c =>
          by_cases hc : c = []
          · simp [hc, Except.map]
          · simp [hc, Except.map]

/-- A two-peer ledger for the skip witness. -/
def skipState : Blockchain :=
  { chain := [genesisBlock], current_transactions := [], nodes := ["a", "b"] }

/-- The same ledger with the first peer dropped. -/
def skipStateDropped : Blockchain :=
  { chain := [genesisBlock], current_transactions := [], nodes := ["b"] }

/-- A fetch in which peer a answers 404 and every other peer answers 500. -/
def skipFetch (s : String) : PeerFetch :=
  if s = "a" then PeerFetch.resp 404 none else PeerFetch.resp 500 none

/-- C2 witness: the 404 peer is skipped - resolution behaves exactly as if
it were not registered. -/
theorem resolve_skips_non_success_witness :
    resolveView (Blockchain.resolve_conflicts skipState skipFetch) =
      resolveView (Blockchain.resolve_conflicts skipStateDropped skipFetch) :=
  resolve_skips_non_success skipState skipFetch "a" [] ["b"] 404 none rfl rfl
    (by decide)

/-- The body a peer contributes to the scan: its `(length, chain)` pair
when it answered 200 with a well-formed body, nothing otherwise. -/
def successBody : PeerFetch → Option (Int × List Block)
  | .exn => none
  | .resp status body => if status = 200 then body else none

/-- The well-formed 200 bodies of a scan list, in scan order. -/
def successBodies (rs : List PeerFetch) : List (Int × List Block) :=
  rs.filterMap successBody

/-- A reported `(length, chain)` pair qualifies for adoption against local
length `L` when the reported length strictly exceeds `L` and the reported
chain passes `validate_chain`. -/
def qualifies (L : Int) (e : Int × List Block) : Bool :=
  decide (L < e.1) && decide (Blockchain.validate_chain e.2 = some true)

/-- The qualifying reported pairs of a scan list. -/
def qualifying (L : Int) (rs : List PeerFetch) : List (Int × List Block) :=
  (successBodies rs).filter (qualifies L)

/-- A chain accepted by `validate_chain` is non-empty. -/
lemma validate_chain_true_ne_nil (c : List Block)
    (h : Blockchain.validate_chain c = some true) : c ≠ [] := by
  intro hc
  subst hc
  simp [Blockchain.validate_chain] at h

/-- The scan loop, when it completes without an exception, returns the
carried chain if nothing qualifies against the carried length, and
otherwise a qualifying entry of maximal reported length. -/
lemma resolveLoop_ok_spec (rs : List PeerFetch) :
    ∀ (nc : Option (List Block)) (cl : Int) (res : Option (List Block)),
      resolveLoop rs nc cl = Except.ok res →
      (qualifying cl rs = [] → res = nc) ∧
      (qualifying cl rs ≠ [] →
        ∃ e ∈ qualifying cl rs, res = some e.2 ∧
          ∀ e' ∈ qualifying cl rs, e'.1 ≤ e.1) := by
  induction rs with
  | nil =>
      intro nc cl res h
      simp [resolveLoop] at h
      subst h
      refine ⟨fun _ => rfl, fun hq => absurd ?_ hq⟩
      simp [qualifying, successBodies]
  | cons r rs ih =>
      intro nc cl res h
      cases r with
      | exn => simp [resolveLoop] at h
      | resp status body =>
          by_cases h200 : status = 200
          · subst h200
            cases body with
            | none => simp [resolveLoop] at h
            | some lb =>
                obtain ⟨len, chain⟩ := lb
                have hsb : successBodies (PeerFetch.resp 200 (some (len, chain)) :: rs) =
                    (len, chain) :: successBodies rs := by
                  simp [successBodies, successBody]
                by_cases hlt : cl < len
                · cases hv : Blockchain.validate_chain chain with
                  | none => simp [resolveLoop, hlt, hv] at h
                  | some bv =>
                      cases bv with
                      | false =>
                          simp [resolveLoop, hlt, hv] at h
                          have hqe : qualifying cl
                              (PeerFetch.resp 200 (some (len, chain)) :: rs) =
                              qualifying cl rs := by
                            simp [qualifying, hsb, List.filter_cons, qualifies, hv]
                          rw [hqe]
                          exact ih nc cl res h
                      | true =>
                          simp [resolveLoop, hlt, hv] at h
                          have hqhead : qualifies cl (len, chain) = true := by
                            simp [qualifies, hlt, hv]
                          have hqe : qualifying cl
                              (PeerFetch.resp 200 (some (len, chain)) :: rs) =
                              (len, chain) :: qualifying cl rs := by
                            simp [qualifying, hsb, List.filter_cons, hqhead]
                          rw [hqe]
                          obtain ⟨hemp, hne⟩ := ih (some chain) len res h
                          by_cases hstop : qualifying len rs = []
                          · have hres : res = some chain := hemp hstop
                            refine ⟨fun hq => absurd hq (List.cons_ne_nil _ _),
                              fun _ => ⟨(len, chain), List.mem_cons_self _ _, hres, ?_⟩⟩
                            intro e' he'
                            rcases List.mem_cons.mp he' with he' | he'
                            · rw [he']
                            · by_contra hgt
                              push_neg at hgt
                              have hm := List.mem_filter.mp he'
                              have hv' : Blockchain.validate_chain e'.2 = some true := by
                                have hq' := hm.2
                                simp [qualifies] at hq'
                                exact hq'.2
                              have he'q : e' ∈ qualifying len rs :=
                                List.mem_filter.mpr ⟨hm.1, by simp [qualifies, hgt, hv']⟩
                              rw [hstop] at he'q
                              exact absurd he'q (List.not_mem_nil _)
                          · obtain ⟨e, hem, hres, hmax⟩ := hne hstop
                            have hm := List.mem_filter.mp hem
                            have hq' := hm.2
                            simp [qualifies] at hq'
                            have hemcl : e ∈ qualifying cl rs :=
                              List.mem_filter.mpr
                                ⟨hm.1, by simp [qualifies, lt_trans hlt hq'.1, hq'.2]⟩
                            refine ⟨fun hq => absurd hq (List.cons_ne_nil _ _),
                              fun _ => ⟨e, List.mem_cons_of_mem _ hemcl, hres, ?_⟩⟩
                            intro e' he'
                            rcases List.mem_cons.mp he' with he' | he'
                            · rw [he']
                              exact le_of_lt hq'.1
                            · by_cases hgt : len < e'.1
                              · have hm' := List.mem_filter.mp he'
                                have hv' : Blockchain.validate_chain e'.2 = some true := by
                                  have hq'' := hm'.2
                                  simp [qualifies] at hq''
                                  exact hq''.2
                                exact hmax e'
                                  (List.mem_filter.mpr ⟨hm'.1, by simp [qualifies, hgt, hv']⟩)
                              · push_neg at hgt
                                exact le_trans hgt (le_of_lt hq'.1)
                · simp [resolveLoop, hlt] at h
                  have hqe : qualifying cl
                      (PeerFetch.resp 200 (some (len, chain)) :: rs) =
                      qualifying cl rs := by
                    simp [qualifying, hsb, List.filter_cons, qualifies, hlt]
                  rw [hqe]
                  exact ih nc cl res h
          · simp [resolveLoop, h200] at h
            have hqe : qualifying cl (PeerFetch.resp status body :: rs) =
                qualifying cl rs := by
              simp [qualifying, successBodies, successBody, h200]
            rw [hqe]
            exact ih nc cl res h

/-- C1: when `resolve_conflicts` returns (no peer made it raise), either no
reported chain qualifies - reported length strictly above the local chain
length and `validate_chain` passing - and then the ledger is unchanged with
`replaced = false`, or some qualifying reported chain of maximal reported
length is installed as the ledger's chain with `replaced = true`. -/
theorem resolve_adopts_longest_valid (bc : Blockchain) (fetch : String → PeerFetch)
    (replaced : Bool) (bc' : Blockchain)
    (h : bc.resolve_conflicts fetch = Except.ok (replaced, bc')) :
    (qualifying (Int.ofNat bc.chain.length) (bc.nodes.map fetch) = [] →
      replaced = false ∧ bc' = bc) ∧
    (qualifying (Int.ofNat bc.chain.length) (bc.nodes.map fetch) ≠ [] →
      replaced = true ∧
      ∃ e ∈ qualifying (Int.ofNat bc.chain.length) (bc.nodes.map fetch),
        bc' = { bc with chain := e.2 } ∧
        ∀ e' ∈ qualifying (Int.ofNat bc.chain.length) (bc.nodes.map fetch),
          e'.1 ≤ e.1) := by
  unfold Blockchain.resolve_conflicts at h
  cases hl : resolveLoop (bc.nodes.map fetch) none (Int.ofNat bc.chain.length) with
  | error e =>
      rw [hl] at h
      exact absurd h (by simp)
  | ok nc =>
      rw [hl] at h
      obtain ⟨hemp, hne⟩ :=
        resolveLoop_ok_spec (bc.nodes.map fetch) none (Int.ofNat bc.chain.length) nc hl
      constructor
      · intro hq
        have hnc : nc = none := hemp hq
        subst hnc
        simp only [Option.some.injEq] at h
        simp at h
        exact ⟨h.1, h.2.symm⟩
      · intro hq
        obtain ⟨e, hem, hres, hmax⟩ := hne hq
        subst hres
        have hval : Blockchain.validate_chain e.2 = some true := by
          have hq' := (List.mem_filter.mp hem).2
          simp [qualifies] at hq'
          exact hq'.2
        have hne2 : e.2 ≠ [] := validate_chain_true_ne_nil e.2 hval
        simp [hne2] at h
        exact ⟨h.1, e, hem, h.2.symm, hmax⟩

/-- A lone block as a peer reports it; any single block passes
`validate_chain` on its own. -/
def peerBlock : Block :=
  { index := 1, timestamp := 3, transactions := [], proof := 100,
    previous_hash := .int 1 }

/-- A one-block ledger with one registered peer. -/
def consBase : Blockchain :=
  { chain := [genesisBlock], current_transactions := [], nodes := ["p"] }

/-- The peer answers 200 and reports length 2 (the code trusts the
reported number) with a one-block chain. -/
def consFetch : String → PeerFetch :=
  fun _ => PeerFetch.resp 200 (some (2, [peerBlock]))

/-- The ledger after adopting the peer's reported chain. -/
def consAdopted : Blockchain :=
  { chain := [peerBlock], current_transactions := [], nodes := ["p"] }

/-- C1 witness: with one qualifying peer (reported length 2 against local
length 1, valid chain) the run returns `replaced = true` and installs the
reported chain. -/
theorem resolve_adopts_longest_valid_witness :
    Blockchain.resolve_conflicts consBase consFetch = Except.ok (true, consAdopted) ∧
    qualifying (Int.ofNat consBase.chain.length) (consBase.nodes.map consFetch) ≠ [] ∧
    true = true :=
  ⟨rfl, by decide,
   ((resolve_adopts_longest_valid consBase consFetch true consAdopted rfl).2
     (by decide)).1⟩
